import Mathlib

/-!
Verification of the Veo Source Analyzer client.

The development shallowly embeds the three source modules:
* `App.tsx` — the response parser `parseAnalysisResult` and the caller
  `handleAnalyzeVideo`;
* `services/geminiService.ts` — the analysis client `analyzeVideo`;
* `utils/fileUtils.ts` — the binary encoder (modelled only through its
  result type, since the claims treat it as a collaborator).

JavaScript strings are modelled as lists of characters (`Str`), JS regex
section extraction as explicit first-occurrence search, and the async
try/catch control flow of `analyzeVideo` as a total function over the
outcomes of its two suspension points (file encoding and the remote call).
-/

set_option autoImplicit false

namespace VeoAnalyzer

/-- Characters of a JavaScript string. -/
abbrev Str := List Char

/-- Coerce a Lean string literal to the character-list model. -/
def str (s : String) : Str := s.data

/-- Whitespace as recognised by JavaScript `String.prototype.trim`:
ASCII whitespace, NBSP, BOM, the Unicode space separators and the
line/paragraph separators. -/
def isJsWhitespace (c : Char) : Bool :=
  let n := c.toNat
  n == 0x9 || n == 0xa || n == 0xb || n == 0xc || n == 0xd || n == 0x20 ||
  n == 0xa0 || n == 0x1680 || (Nat.ble 0x2000 n && Nat.ble n 0x200a) ||
  n == 0x2028 || n == 0x2029 || n == 0x202f || n == 0x205f ||
  n == 0x3000 || n == 0xfeff

/-- JavaScript `s.trim()`: strip leading and trailing whitespace. -/
def jsTrim (s : Str) : Str :=
  ((s.dropWhile isJsWhitespace).reverse.dropWhile isJsWhitespace).reverse

/-- JavaScript `s.split(sep)` for a single-character separator:
every occurrence of `sep` separates two (possibly empty) fields, and the
empty string splits to one empty field. -/
def splitOnChar (sep : Char) : Str → List Str
  | [] => [[]]
  | c :: cs =>
    match splitOnChar sep cs with
    | [] => [[]]
    | h :: t => if c == sep then [] :: h :: t else (c :: h) :: t

/-- JavaScript `s.startsWith(p)`. -/
def jsStartsWith (s p : Str) : Bool := p.isPrefixOf s

/-- The suffix of `s` following the first occurrence of `pat`, when `pat`
occurs in `s`. This is what a JS regex beginning with the literal `pat`
leaves to the rest of the pattern. -/
def afterFirst (pat : Str) : Str → Option Str
  | [] => if pat.isPrefixOf ([] : Str) then some [] else none
  | c :: cs =>
    if pat.isPrefixOf (c :: cs) then some ((c :: cs).drop pat.length)
    else afterFirst pat cs

/-- The prefix of `s` preceding the first occurrence of `pat`, when `pat`
occurs in `s`. This is what a lazy group `([\s\S]*?)` captures before a
closing literal `pat`. -/
def beforeFirst (pat : Str) : Str → Option Str
  | [] => if pat.isPrefixOf ([] : Str) then some [] else none
  | c :: cs =>
    if pat.isPrefixOf (c :: cs) then some []
    else (beforeFirst pat cs).map (fun r => c :: r)

/-- Capture group of the JS regex `p([\s\S]*?)q` on `s`: the text strictly
between the first occurrence of `p` and the first occurrence of `q` after
it. (If `q` does not occur after the first `p`, it occurs after no later
`p` either, so the regex fails; hence this computes the regex exactly.) -/
def extractBetween (p q s : Str) : Option Str :=
  (afterFirst p s).bind (beforeFirst q)

/-- Literal section marker `GLOBAL COHESION BLOCK` from App.tsx. -/
def MARKER_GLOBAL : Str := str "GLOBAL COHESION BLOCK"

/-- Literal section marker `DETAILED SCENE BREAKDOWN TABLE` from App.tsx. -/
def MARKER_TABLE : Str := str "DETAILED SCENE BREAKDOWN TABLE"

/-- Literal section marker `TECHNICAL STYLE ANALYSIS` from App.tsx. -/
def MARKER_TECH : Str := str "TECHNICAL STYLE ANALYSIS"

/-- Row of the scene-breakdown table (interface `TableRow` in App.tsx). -/
structure TableRow where
  timestamp : Str
  action : Str
  notes : Str
deriving DecidableEq, Repr

/-- Structured parse result (interface `ParsedAnalysis` in App.tsx). -/
structure ParsedAnalysis where
  globalCohesionBlock : Str
  sceneBreakdown : List TableRow
  technicalAnalysis : Str
deriving DecidableEq, Repr

/-- Cell extraction for one table line, from App.tsx line 29:
`row.split('|').map(cell => cell.trim()).filter(cell => cell)`. -/
def cellsOf (row : Str) : List Str :=
  ((splitOnChar '|' row).map jsTrim).filter (fun cell => !cell.isEmpty)

/-- Row construction from App.tsx lines 29-38: a line yields a `TableRow`
exactly when it has exactly 3 non-empty trimmed cells, else `null`. -/
def parseRow (row : Str) : Option TableRow :=
  match cellsOf row with
  | [a, b, c] => some ⟨a, b, c⟩
  | _ => none

/-- The `globalCohesionBlock` local of `parseAnalysisResult` (App.tsx
lines 19-20): trimmed text between the first two markers, or empty. -/
def extractGlobalCohesion (text : Str) : Str :=
  match extractBetween MARKER_GLOBAL MARKER_TABLE text with
  | some block => jsTrim block
  | none => []

/-- The `tableString` local of `parseAnalysisResult` (App.tsx lines
22-23): trimmed text between the table and technical markers, or empty. -/
def tableString (text : Str) : Str :=
  match extractBetween MARKER_TABLE MARKER_TECH text with
  | some block => jsTrim block
  | none => []

/-- The line list the row loop runs over (App.tsx lines 25-27):
`tableString.split('\n').slice(2)`. -/
def tableLines (text : Str) : List Str :=
  (splitOnChar '\n' (tableString text)).drop 2

/-- The `sceneBreakdown` local of `parseAnalysisResult` (App.tsx lines
25-39): parse every remaining line, dropping the `null`s. -/
def extractSceneBreakdown (text : Str) : List TableRow :=
  (tableLines text).filterMap parseRow

/-- The `technicalAnalysis` local of `parseAnalysisResult` (App.tsx lines
41-42): trimmed text after the technical marker, or empty. -/
def extractTechnical (text : Str) : Str :=
  match afterFirst MARKER_TECH text with
  | some rest => jsTrim rest
  | none => []

/-- The parser `parseAnalysisResult` of App.tsx lines 17-53. The
try/catch around the body is vacuous in the model (all operations are
total), so the function is the guarded record construction of lines
44-48. -/
def parseAnalysisResult (text : Str) : Option ParsedAnalysis :=
  if (extractGlobalCohesion text).isEmpty
      && (extractSceneBreakdown text).isEmpty
      && (extractTechnical text).isEmpty
  then none
  else some ⟨extractGlobalCohesion text, extractSceneBreakdown text,
             extractTechnical text⟩

/-- A JavaScript thrown value as it matters to `analyzeVideo`'s catch
block: either an `Error` instance carrying a message, or any other
thrown value (the `instanceof Error` test of geminiService.ts line 110). -/
inductive Thrown where
  | err (message : Str)
  | nonError
deriving DecidableEq

/-- Result of `fileToBase64` (fileUtils.ts): base64 payload plus the MIME
type extracted from the data URL. -/
structure EncodedMedia where
  base64Data : Str
  mimeType : Str
deriving DecidableEq

/-- The catch block of `analyzeVideo` (geminiService.ts lines 108-114):
an `Error` becomes the prefixed message, anything else the fixed
unprefixed fallback string. -/
def catchToMessage : Thrown → Str
  | .err message => str "Error: " ++ message
  | .nonError => str "An unknown error occurred during video analysis."

/-- Control flow of `analyzeVideo` (geminiService.ts lines 80-115),
parameterised by the outcomes of its two awaited collaborators: the file
encoding and the remote model call. The second component records whether
the remote call was issued. -/
def analyzeVideoRun (enc : Except Thrown EncodedMedia)
    (remote : EncodedMedia → Except Thrown Str) : Str × Bool :=
  match enc with
  | .error e => (catchToMessage e, false)
  | .ok em =>
    if jsStartsWith em.mimeType (str "video/") then
      match remote em with
      | .ok text => (text, true)
      | .error e => (catchToMessage e, true)
    else
      (catchToMessage (.err (str "Invalid file type. Please upload a video file.")),
       false)

/-- The string `analyzeVideo` resolves with. -/
def analyzeVideo (enc : Except Thrown EncodedMedia)
    (remote : EncodedMedia → Except Thrown Str) : Str :=
  (analyzeVideoRun enc remote).1

/-- The UI state `handleAnalyzeVideo` leaves behind for one analysis
outcome: the `error` and `analysisResult` slots of App.tsx. -/
structure HandleOutcome where
  error : Option Str
  analysisResult : Option Str
deriving DecidableEq

/-- Classification done by `handleAnalyzeVideo` (App.tsx lines 123-134)
on the string returned by `analyzeVideo`: a string starting with
`Error:` is re-thrown and caught, setting the error slot (the re-thrown
`Error`'s message is the string itself); any other string becomes the
analysis result. -/
def handleAnalyzeVideo (result : Str) : HandleOutcome :=
  if jsStartsWith result (str "Error:") then ⟨some result, none⟩
  else ⟨none, some result⟩

/-- Scenario input of spec §8, used by claim C4. -/
def sampleText : Str :=
  str "GLOBAL COHESION BLOCK\nCharacters: a dog\nDETAILED SCENE BREAKDOWN TABLE\n| A | B | C |\n|---|---|---|\n| 00:00-00:05 | Dog runs | Wide shot |\nTECHNICAL STYLE ANALYSIS\nDocumentary style."

/-- Raw (untrimmed) table block sitting between the table and technical
markers of `sampleText`. -/
def sampleTableBlock : Str :=
  str "\n| A | B | C |\n|---|---|---|\n| 00:00-00:05 | Dog runs | Wide shot |\n"

/-- Concrete input whose table block has a malformed middle row. -/
def malformedTableText : Str :=
  str "DETAILED SCENE BREAKDOWN TABLE\nHeader\nSep\n| a | b | c |\n| bad |\n| d | e | f |\nTECHNICAL STYLE ANALYSIS tail"

/-- Raw table block of `malformedTableText`. -/
def malformedTableBlock : Str :=
  str "\nHeader\nSep\n| a | b | c |\n| bad |\n| d | e | f |\n"

/-- Concrete input whose table block is a single line. -/
def shortTableText : Str :=
  str "DETAILED SCENE BREAKDOWN TABLE one line only TECHNICAL STYLE ANALYSIS x"

/-! Helper lemmas shared by the claim theorems. -/

/-- A list containing a non-whitespace character does not trim to nil. -/
theorem jsTrim_ne_nil_of_mem {s : Str} {c : Char} (hc : c ∈ s)
    (hw : isJsWhitespace c = false) : jsTrim s ≠ [] := by
  intro h
  have h1 : (s.dropWhile isJsWhitespace).reverse.dropWhile isJsWhitespace = [] := by
    simp only [jsTrim, List.reverse_eq_nil_iff] at h
    exact h
  have h2 : ∀ x ∈ (s.dropWhile isJsWhitespace).reverse, isJsWhitespace x := by
    simpa [List.dropWhile_eq_nil_iff] using h1
  have h3 : ∀ x ∈ s.dropWhile isJsWhitespace, isJsWhitespace x := by
    intro x hx; exact h2 x (List.mem_reverse.mpr hx)
  have h4 : ∀ x ∈ s, isJsWhitespace x := by
    intro x hx
    rw [← List.takeWhile_append_dropWhile (p := isJsWhitespace) (l := s)] at hx
    rcases List.mem_append.mp hx with hx | hx
    · exact List.mem_takeWhile_imp hx
    · exact h3 x hx
  rw [h4 c hc] at hw
  exact Bool.true_eq_false.mp hw

/-- If a pattern is found by the first-occurrence search, the searched
string decomposes around an occurrence of the pattern. -/
theorem afterFirst_some_decomp {pat r : Str} :
    ∀ {s : Str}, afterFirst pat s = some r → ∃ u v, s = u ++ pat ++ v := by
  intro s
  induction s with
  | nil =>
    intro h
    simp only [afterFirst] at h
    split at h
    · rename_i hp
      rcases List.isPrefixOf_iff_prefix.mp hp with ⟨t, ht⟩
      exact ⟨[], t, by simp [← ht]⟩
    · exact absurd h (by simp)
  | cons c cs ih =>
    intro h
    simp only [afterFirst] at h
    split at h
    · rename_i hp
      rcases List.isPrefixOf_iff_prefix.mp hp with ⟨t, ht⟩
      exact ⟨[], t, by simp [← ht]⟩
    · rcases ih h with ⟨u, v, huv⟩
      exact ⟨c :: u, v, by simp [huv]⟩

/-- If no occurrence of the pattern exists, the search fails. -/
theorem afterFirst_eq_none {pat s : Str}
    (h : ¬ ∃ u v, s = u ++ pat ++ v) : afterFirst pat s = none := by
  cases hr : afterFirst pat s with
  | none => rfl
  | some r => exact absurd (afterFirst_some_decomp hr) h

/-- A string starts with the prefix it was built from. -/
theorem jsStartsWith_append (p m : Str) : jsStartsWith (p ++ m) p = true := by
  simp [jsStartsWith]

/-- A successfully parsed table row has three non-empty fields, because
empty cells are filtered out before the three-cell test. -/
theorem parseRow_fields_ne_nil {row : Str} {tr : TableRow}
    (h : parseRow row = some tr) :
    tr.timestamp ≠ [] ∧ tr.action ≠ [] ∧ tr.notes ≠ [] := by
  unfold parseRow at h
  split at h
  · rename_i a b c hcells
    cases h
    have hmem : ∀ x ∈ [a, b, c], x ≠ [] := by
      intro x hx
      have hx' : x ∈ cellsOf row := by rw [hcells]; exact hx
      have := (List.mem_filter.mp hx').2
      simpa using this
    exact ⟨hmem a (by simp), hmem b (by simp), hmem c (by simp)⟩
  · exact absurd h (by simp)

/-- A line whose cell count is not three parses to no row. -/
theorem parseRow_eq_none {row : Str} (h : (cellsOf row).length ≠ 3) :
    parseRow row = none := by
  unfold parseRow
  split
  · rename_i a b c hcells
    rw [hcells] at h
    exact absurd rfl h
  · rfl

/-- On a list of lines that all have exactly three non-empty cells, the
row loop keeps every line, in order, turning it into its cell triple. -/
theorem filterMap_parseRow_all (lines : List Str)
    (hall : ∀ row ∈ lines, ∃ a b c, cellsOf row = [a, b, c]) :
    (lines.filterMap parseRow).length = lines.length ∧
    ∀ i : Nat, ((lines.filterMap parseRow)[i]?).map
        (fun tr => [tr.timestamp, tr.action, tr.notes])
      = (lines[i]?).map cellsOf := by
  induction lines with
  | nil => exact ⟨rfl, fun i => by simp⟩
  | cons r rs ih =>
    rcases hall r (by simp) with ⟨a, b, c, hr⟩
    have hrow : parseRow r = some ⟨a, b, c⟩ := by
      unfold parseRow; rw [hr]
    have ih' := ih (fun row hrow => hall row (by simp [hrow]))
    rw [List.filterMap_cons_some hrow]
    refine ⟨by simpa using ih'.1, fun i => ?_⟩
    cases i with
    | zero => simp [hr]
    | succ j => simpa using ih'.2 j

/-! Claim theorems. -/

/-- C4: on the spec §8 scenario input, `parseAnalysisResult` returns the
cohesion block `Characters: a dog`, the single table row
`(00:00-00:05, Dog runs, Wide shot)`, and the technical analysis
`Documentary style.`. -/
theorem claim_C4 :
    parseAnalysisResult sampleText =
      some ⟨str "Characters: a dog",
            [⟨str "00:00-00:05", str "Dog runs", str "Wide shot"⟩],
            str "Documentary style."⟩ := by
  decide

/-- C1 counterexample: a remote-call failure whose thrown value is not an
`Error` instance makes `analyzeVideo` return the fixed fallback string
`An unknown error occurred during video analysis.`, which does not start
with `Error: `, so not every failure yields an `Error: `-prefixed
string. -/
theorem claim_C1_counterexample :
    analyzeVideo (.ok ⟨str "QUJD", str "video/mp4"⟩) (fun _ => .error .nonError)
        = str "An unknown error occurred during video analysis." ∧
    jsStartsWith
        (analyzeVideo (.ok ⟨str "QUJD", str "video/mp4"⟩) (fun _ => .error .nonError))
        (str "Error: ") = false := by
  decide

/-- C1 (amended): `analyzeVideo` always returns normally. Whenever the
failure is an `Error` instance — which covers the malformed-payload and
non-video validation failures, whose throw sites construct `Error`s —
the returned string is `Error: ` followed by the error message and so
starts with `Error: `; a failure whose thrown value is not an `Error`
instance instead yields the fixed fallback string, which lacks the
prefix. -/
theorem claim_C1_amended (enc : Except Thrown EncodedMedia)
    (remote : EncodedMedia → Except Thrown Str) :
    (∀ msg, enc = .error (.err msg) →
        analyzeVideo enc remote = str "Error: " ++ msg ∧
        jsStartsWith (analyzeVideo enc remote) (str "Error: ") = true) ∧
    (∀ em, enc = .ok em → jsStartsWith em.mimeType (str "video/") = false →
        jsStartsWith (analyzeVideo enc remote) (str "Error: ") = true) ∧
    (∀ em msg, enc = .ok em → jsStartsWith em.mimeType (str "video/") = true →
        remote em = .error (.err msg) →
        analyzeVideo enc remote = str "Error: " ++ msg ∧
        jsStartsWith (analyzeVideo enc remote) (str "Error: ") = true) ∧
    (∀ em, enc = .ok em → jsStartsWith em.mimeType (str "video/") = true →
        remote em = .error .nonError →
        analyzeVideo enc remote
          = str "An unknown error occurred during video analysis.") ∧
    (enc = .error .nonError →
        analyzeVideo enc remote
          = str "An unknown error occurred during video analysis.") := by
  refine ⟨?_, ?_, ?_, ?_, ?_⟩
  · rintro msg rfl
    exact ⟨rfl, jsStartsWith_append _ _⟩
  · rintro em rfl hmime
    simp only [analyzeVideo, analyzeVideoRun, hmime, Bool.false_eq_true,
      if_false, catchToMessage]
    exact jsStartsWith_append _ _
  · rintro em msg rfl hmime hrem
    have h1 : analyzeVideo (.ok em) remote = str "Error: " ++ msg := by
      simp only [analyzeVideo, analyzeVideoRun, hmime, if_true, hrem, catchToMessage]
    exact ⟨h1, h1 ▸ jsStartsWith_append _ _⟩
  · rintro em rfl hmime hrem
    simp only [analyzeVideo, analyzeVideoRun, hmime, if_true, hrem, catchToMessage]
  · rintro rfl
    rfl

/-- Witness for C1 (amended): the malformed-payload failure message comes
back with the `Error: ` prefix. -/
theorem claim_C1_amended_witness :
    jsStartsWith
      (analyzeVideo (.error (.err (str "Invalid data URL format")))
        (fun _ => .ok (str "ok")))
      (str "Error: ") = true :=
  ((claim_C1_amended (.error (.err (str "Invalid data URL format")))
      (fun _ => .ok (str "ok"))).1
    (str "Invalid data URL format") rfl).2

/-- C8: for a non-video MIME type, `analyzeVideo` produces its
`Error: `-prefixed invalid-file-type value and the remote model call is
never issued. -/
theorem claim_C8 (em : EncodedMedia) (remote : EncodedMedia → Except Thrown Str)
    (h : jsStartsWith em.mimeType (str "video/") = false) :
    analyzeVideoRun (.ok em) remote
      = (str "Error: Invalid file type. Please upload a video file.", false) ∧
    jsStartsWith (analyzeVideo (.ok em) remote) (str "Error: ") = true := by
  have hrun : analyzeVideoRun (.ok em) remote
      = (str "Error: Invalid file type. Please upload a video file.", false) := by
    simp only [analyzeVideoRun, h, Bool.false_eq_true, if_false, catchToMessage]
    exact Prod.ext (by decide) rfl
  refine ⟨hrun, ?_⟩
  simp only [analyzeVideo, hrun]
  decide

/-- Witness for C8 at a concrete non-video upload. -/
theorem claim_C8_witness :
    analyzeVideoRun (.ok ⟨str "QUJD", str "image/png"⟩) (fun _ => .ok (str "ok"))
      = (str "Error: Invalid file type. Please upload a video file.", false) :=
  (claim_C8 ⟨str "QUJD", str "image/png"⟩ (fun _ => .ok (str "ok"))
    (by decide)).1

/-- C10: `handleAnalyzeVideo` records a failure (error slot set, no
analysis stored) exactly when the string returned by `analyzeVideo`
starts with `Error:`, and records a success (analysis stored, no error)
exactly otherwise — in particular a genuine model response beginning
with `Error:` is classified as a failure, and a failure string lacking
the prefix is classified as a successful analysis. -/
theorem claim_C10 (s : Str) :
    ((handleAnalyzeVideo s).error = some s ∧
        (handleAnalyzeVideo s).analysisResult = none
      ↔ jsStartsWith s (str "Error:") = true) ∧
    ((handleAnalyzeVideo s).error = none ∧
        (handleAnalyzeVideo s).analysisResult = some s
      ↔ jsStartsWith s (str "Error:") = false) ∧
    (∀ enc remote, analyzeVideo enc remote = s →
        jsStartsWith s (str "Error:") = true →
        handleAnalyzeVideo s = ⟨some s, none⟩) ∧
    (∀ enc remote, analyzeVideo enc remote = s →
        jsStartsWith s (str "Error:") = false →
        handleAnalyzeVideo s = ⟨none, some s⟩) := by
  cases h : jsStartsWith s (str "Error:") with
  | false =>
    refine ⟨?_, ?_, ?_, ?_⟩ <;>
      simp [handleAnalyzeVideo, h]
  | true =>
    refine ⟨?_, ?_, ?_, ?_⟩ <;>
      simp [handleAnalyzeVideo, h]

/-- Witness for C10: the unprefixed fallback failure string produced by
`analyzeVideo` on a non-`Error` remote failure is classified as a
successful analysis. -/
theorem claim_C10_witness :
    handleAnalyzeVideo (str "An unknown error occurred during video analysis.")
      = ⟨none, some (str "An unknown error occurred during video analysis.")⟩ :=
  (claim_C10 (str "An unknown error occurred during video analysis.")).2.2.2
    (.ok ⟨str "QUJD", str "video/mp4"⟩) (fun _ => .error .nonError)
    (by decide) (by decide)

/-- C2: when the text contains `GLOBAL COHESION BLOCK` followed by
`DETAILED SCENE BREAKDOWN TABLE` with text `g` between their first
occurrences, and `TECHNICAL STYLE ANALYSIS` with text `d` after its
first occurrence, and both `g` and `d` contain a non-whitespace
character, the parser returns a result whose `globalCohesionBlock` and
`technicalAnalysis` are the trimmed `g` and `d`, both non-empty. -/
theorem claim_C2 (text g d : Str)
    (hg : extractBetween MARKER_GLOBAL MARKER_TABLE text = some g)
    (hd : afterFirst MARKER_TECH text = some d)
    (hng : ∃ c ∈ g, isJsWhitespace c = false)
    (hnd : ∃ c ∈ d, isJsWhitespace c = false) :
    ∃ r, parseAnalysisResult text = some r ∧
      r.globalCohesionBlock = jsTrim g ∧
      r.technicalAnalysis = jsTrim d ∧
      r.globalCohesionBlock ≠ [] ∧
      r.technicalAnalysis ≠ [] := by
  rcases hng with ⟨c1, hc1, hw1⟩
  rcases hnd with ⟨c2, hc2, hw2⟩
  have hG : extractGlobalCohesion text = jsTrim g := by
    simp only [extractGlobalCohesion, hg]
  have hT : extractTechnical text = jsTrim d := by
    simp only [extractTechnical, hd]
  have hgn : jsTrim g ≠ [] := jsTrim_ne_nil_of_mem hc1 hw1
  have hdn : jsTrim d ≠ [] := jsTrim_ne_nil_of_mem hc2 hw2
  have hfalse : (extractGlobalCohesion text).isEmpty = false := by
    rw [hG]; exact List.isEmpty_eq_false.mpr hgn
  refine ⟨⟨extractGlobalCohesion text, extractSceneBreakdown text,
           extractTechnical text⟩, ?_, hG, hT, ?_, ?_⟩
  · simp [parseAnalysisResult, hfalse]
  · rw [hG]; exact hgn
  · rw [hT]; exact hdn

/-- Witness for C2 on the spec §8 scenario text. -/
theorem claim_C2_witness :
    ∃ r, parseAnalysisResult sampleText = some r ∧
      r.globalCohesionBlock = jsTrim (str "\nCharacters: a dog\n") ∧
      r.technicalAnalysis = jsTrim (str "\nDocumentary style.") ∧
      r.globalCohesionBlock ≠ [] ∧
      r.technicalAnalysis ≠ [] :=
  claim_C2 sampleText (str "\nCharacters: a dog\n") (str "\nDocumentary style.")
    (by decide) (by decide) (by decide) (by decide)

/-- C3: if every line of the table block after the first two has exactly
three non-empty trimmed cells, the extracted scene breakdown has exactly
one row per line, in order, with fields equal to the line's trimmed
cells; and any returned parse result carries exactly this breakdown. -/
theorem claim_C3 (text tbl : Str)
    (ht : extractBetween MARKER_TABLE MARKER_TECH text = some tbl)
    (hall : ∀ row ∈ (splitOnChar '\n' (jsTrim tbl)).drop 2,
        ∃ a b c, cellsOf row = [a, b, c]) :
    (extractSceneBreakdown text).length
        = ((splitOnChar '\n' (jsTrim tbl)).drop 2).length ∧
    (∀ i : Nat, ((extractSceneBreakdown text)[i]?).map
          (fun tr => [tr.timestamp, tr.action, tr.notes])
        = (((splitOnChar '\n' (jsTrim tbl)).drop 2)[i]?).map cellsOf) ∧
    (∀ r, parseAnalysisResult text = some r →
        r.sceneBreakdown = extractSceneBreakdown text) := by
  have hTS : tableString text = jsTrim tbl := by simp only [tableString, ht]
  have hSB : extractSceneBreakdown text
      = ((splitOnChar '\n' (jsTrim tbl)).drop 2).filterMap parseRow := by
    simp only [extractSceneBreakdown, tableLines, hTS]
  have hfm := filterMap_parseRow_all _ hall
  refine ⟨by rw [hSB]; exact hfm.1, fun i => by rw [hSB]; exact hfm.2 i, ?_⟩
  intro r hr
  unfold parseAnalysisResult at hr
  split at hr
  · exact absurd hr (by simp)
  · injection hr with hr2
    rw [← hr2]

/-- Witness for C3 on the spec §8 scenario text (one valid row). -/
theorem claim_C3_witness :
    (extractSceneBreakdown sampleText).length
        = ((splitOnChar '\n' (jsTrim sampleTableBlock)).drop 2).length ∧
    (∀ i : Nat, ((extractSceneBreakdown sampleText)[i]?).map
          (fun tr => [tr.timestamp, tr.action, tr.notes])
        = (((splitOnChar '\n' (jsTrim sampleTableBlock)).drop 2)[i]?).map cellsOf) ∧
    (∀ r, parseAnalysisResult sampleText = some r →
        r.sceneBreakdown = extractSceneBreakdown sampleText) :=
  claim_C3 sampleText sampleTableBlock (by decide)
    (by
      intro row hr
      have hl : (splitOnChar '\n' (jsTrim sampleTableBlock)).drop 2
          = [str "| 00:00-00:05 | Dog runs | Wide shot |"] := by decide
      rw [hl, List.mem_singleton] at hr
      exact ⟨str "00:00-00:05", str "Dog runs", str "Wide shot",
             by rw [hr]; decide⟩)

/-- C5: a line of the table block (past the first two) whose cell count
is not three yields no table row — `parseRow` is `none` on it — and the
extracted breakdown is exactly the rows of the lines before it followed
by the rows of the lines after it. -/
theorem claim_C5 (text tbl row : Str) (j : Nat)
    (ht : extractBetween MARKER_TABLE MARKER_TECH text = some tbl)
    (hj : ((splitOnChar '\n' (jsTrim tbl)).drop 2)[j]? = some row)
    (hbad : (cellsOf row).length ≠ 3) :
    parseRow row = none ∧
    extractSceneBreakdown text
      = (((splitOnChar '\n' (jsTrim tbl)).drop 2).take j).filterMap parseRow
        ++ (((splitOnChar '\n' (jsTrim tbl)).drop 2).drop (j + 1)).filterMap
            parseRow := by
  have hnone := parseRow_eq_none hbad
  refine ⟨hnone, ?_⟩
  have hTS : tableString text = jsTrim tbl := by simp only [tableString, ht]
  have hTL : tableLines text = (splitOnChar '\n' (jsTrim tbl)).drop 2 := by
    simp only [tableLines, hTS]
  rcases List.getElem?_eq_some_iff.mp hj with ⟨hlt, hget⟩
  have hdecomp : (splitOnChar '\n' (jsTrim tbl)).drop 2
      = ((splitOnChar '\n' (jsTrim tbl)).drop 2).take j
        ++ row :: ((splitOnChar '\n' (jsTrim tbl)).drop 2).drop (j + 1) := by
    conv_lhs =>
      rw [← List.take_append_drop j ((splitOnChar '\n' (jsTrim tbl)).drop 2)]
    rw [List.drop_eq_getElem_cons hlt, hget]
  calc extractSceneBreakdown text
      = ((splitOnChar '\n' (jsTrim tbl)).drop 2).filterMap parseRow := by
        simp only [extractSceneBreakdown, hTL]
    _ = (((splitOnChar '\n' (jsTrim tbl)).drop 2).take j).filterMap parseRow
        ++ (row :: ((splitOnChar '\n' (jsTrim tbl)).drop 2).drop (j + 1)).filterMap
            parseRow := by
        rw [← List.filterMap_append, ← hdecomp]
    _ = _ := by rw [List.filterMap_cons_none hnone]

/-- Witness for C5: the one-cell line `| bad |` between two valid rows is
dropped while both neighbours are kept. -/
theorem claim_C5_witness :
    parseRow (str "| bad |") = none ∧
    extractSceneBreakdown malformedTableText
      = (((splitOnChar '\n' (jsTrim malformedTableBlock)).drop 2).take 1).filterMap
          parseRow
        ++ (((splitOnChar '\n' (jsTrim malformedTableBlock)).drop 2).drop 2).filterMap
            parseRow :=
  claim_C5 malformedTableText malformedTableBlock (str "| bad |") 1
    (by decide) (by decide) (by decide)

/-- C6: the parser returns `none` exactly when all three extracted fields
are empty; any other outcome is the record of the three extracted
fields, even if one or two of them are empty; and when no marker occurs
in the text at all, the result is `none`. -/
theorem claim_C6 (text : Str) :
    (parseAnalysisResult text = none ↔
      (extractGlobalCohesion text = [] ∧ extractSceneBreakdown text = [] ∧
       extractTechnical text = [])) ∧
    (parseAnalysisResult text ≠ none →
      parseAnalysisResult text
        = some ⟨extractGlobalCohesion text, extractSceneBreakdown text,
                extractTechnical text⟩) ∧
    ((¬ ∃ u v, text = u ++ MARKER_GLOBAL ++ v) →
     (¬ ∃ u v, text = u ++ MARKER_TABLE ++ v) →
     (¬ ∃ u v, text = u ++ MARKER_TECH ++ v) →
      parseAnalysisResult text = none) := by
  have hiff : parseAnalysisResult text = none ↔
      (extractGlobalCohesion text = [] ∧ extractSceneBreakdown text = [] ∧
       extractTechnical text = []) := by
    unfold parseAnalysisResult
    split
    · rename_i hcond
      simp only [Bool.and_eq_true, List.isEmpty_eq_true] at hcond
      simp [hcond.1.1, hcond.1.2, hcond.2]
    · rename_i hcond
      simp only [Bool.and_eq_true, List.isEmpty_eq_true] at hcond
      constructor
      · intro h; exact absurd h (by simp)
      · rintro ⟨h1, h2, h3⟩
        exact absurd ⟨⟨h1, h2⟩, h3⟩ hcond
  refine ⟨hiff, ?_, ?_⟩
  · intro h
    unfold parseAnalysisResult at h ⊢
    split at h
    · exact absurd rfl h
    · rename_i hcond
      rw [if_neg hcond]
  · intro h1 h2 h3
    have e1 : extractGlobalCohesion text = [] := by
      simp only [extractGlobalCohesion, extractBetween, afterFirst_eq_none h1,
        Option.none_bind]
    have e2 : tableString text = [] := by
      simp only [tableString, extractBetween, afterFirst_eq_none h2,
        Option.none_bind]
    have e3 : extractTechnical text = [] := by
      simp only [extractTechnical, afterFirst_eq_none h3]
    have e4 : extractSceneBreakdown text = [] := by
      simp only [extractSceneBreakdown, tableLines, e2]
      rfl
    exact hiff.mpr ⟨e1, e4, e3⟩

/-- Witness for C6: on a markerless text the parse is absent. -/
theorem claim_C6_witness : parseAnalysisResult (str "hello") = none := by
  have hlen : ∀ pat : Str, 5 < pat.length →
      ¬ ∃ u v, str "hello" = u ++ pat ++ v := by
    rintro pat hp ⟨u, v, h⟩
    have hl := congrArg List.length h
    rw [show (str "hello").length = 5 from by decide] at hl
    simp only [List.length_append] at hl
    omega
  exact (claim_C6 (str "hello")).2.2
    (hlen _ (by decide)) (hlen _ (by decide)) (hlen _ (by decide))

/-- C7: the row loop discards exactly the first two lines of the trimmed
table block, whatever their content — the breakdown depends only on the
remaining lines — and a block with fewer than two lines yields an empty
breakdown. -/
theorem claim_C7 (text tbl : Str)
    (ht : extractBetween MARKER_TABLE MARKER_TECH text = some tbl) :
    (∀ l1 l2 rest, splitOnChar '\n' (jsTrim tbl) = l1 :: l2 :: rest →
        extractSceneBreakdown text = rest.filterMap parseRow) ∧
    ((splitOnChar '\n' (jsTrim tbl)).length < 2 →
        extractSceneBreakdown text = []) := by
  have hTS : tableString text = jsTrim tbl := by simp only [tableString, ht]
  have hSB : extractSceneBreakdown text
      = ((splitOnChar '\n' (jsTrim tbl)).drop 2).filterMap parseRow := by
    simp only [extractSceneBreakdown, tableLines, hTS]
  constructor
  · intro l1 l2 rest hsplit
    rw [hSB, hsplit]
    rfl
  · intro hlt
    rw [hSB, List.drop_eq_nil_of_le (by omega)]
    rfl

/-- Witness for C7: a one-line table block yields no rows. -/
theorem claim_C7_witness : extractSceneBreakdown shortTableText = [] :=
  (claim_C7 shortTableText (str " one line only ") (by decide)).2 (by decide)

/-- C9: every `TableRow` inside a returned `ParsedAnalysis` has non-empty
`timestamp`, `action` and `notes`. -/
theorem claim_C9 (text : Str) (r : ParsedAnalysis)
    (h : parseAnalysisResult text = some r) :
    ∀ tr ∈ r.sceneBreakdown,
      tr.timestamp ≠ [] ∧ tr.action ≠ [] ∧ tr.notes ≠ [] := by
  have hr : r.sceneBreakdown = extractSceneBreakdown text := by
    unfold parseAnalysisResult at h
    split at h
    · exact absurd h (by simp)
    · injection h with h2
      rw [← h2]
  intro tr htr
  rw [hr] at htr
  simp only [extractSceneBreakdown] at htr
  rcases List.mem_filterMap.mp htr with ⟨row, _, hrow⟩
  exact parseRow_fields_ne_nil hrow

/-- Witness for C9 on the single row of the spec §8 scenario's parse
result. -/
theorem claim_C9_witness :
    (TableRow.mk (str "00:00-00:05") (str "Dog runs") (str "Wide shot")).timestamp
        ≠ [] ∧
    (TableRow.mk (str "00:00-00:05") (str "Dog runs") (str "Wide shot")).action
        ≠ [] ∧
    (TableRow.mk (str "00:00-00:05") (str "Dog runs") (str "Wide shot")).notes
        ≠ [] :=
  claim_C9 sampleText
    ⟨str "Characters: a dog",
     [⟨str "00:00-00:05", str "Dog runs", str "Wide shot"⟩],
     str "Documentary style."⟩
    (by decide)
    ⟨str "00:00-00:05", str "Dog runs", str "Wide shot"⟩
    (by decide)

end VeoAnalyzer
